import Mathlib

/-!
Verification of the FlagGuard analytical core against its specification.

This file gives a shallow embedding, in Lean 4, of the parts of the
FlagGuard code base that the checked claims are about:

* the core data model (`src/flagguard/core/models.py`),
* the Z3 SAT wrapper (`src/flagguard/analysis/z3_wrapper.py`),
* the conflict detector (`src/flagguard/analysis/conflict_detector.py`),
* the dead-code finder (`src/flagguard/analysis/dead_code.py`),
* the path analyzer (`src/flagguard/analysis/path_analyzer.py`),
* format auto-detection (`src/flagguard/parsers/base.py`),
* the generic and LaunchDarkly config parsers,
* the Python regex extractor (`src/flagguard/parsers/ast/python.py`),
* the source scanner extension dispatch (`src/flagguard/parsers/ast/scanner.py`).

Python dictionaries are modelled as insertion-ordered association lists,
machine integers as `Nat`/`Int`, fallible code as `Option`/`Except`.
The Z3 backend is modelled by an executable, sound and complete decision
procedure over the finitely many boolean constraints the wrapper can
ever assert (`requires`, mutual exclusion, always-on, always-off).
-/

set_option autoImplicit false
set_option linter.unusedVariables false

namespace FlagGuard

/-! ## Core data model (models.py) -/

/-- `FlagType` enumeration from `models.py`. -/
inductive FlagType where
  | boolean
  | string
  | number
  | json
deriving DecidableEq, Repr

/-- `ConflictSeverity` enumeration from `models.py`. -/
inductive ConflictSeverity where
  | critical
  | high
  | medium
  | low
deriving DecidableEq, Repr

/-- JSON-like values, as produced by `json.loads`.  Objects are
insertion-ordered association lists, mirroring Python dicts.  JSON
floating-point numbers are not modelled (no checked claim depends on
them); integers cover every numeric literal the claims exercise. -/
inductive JValue where
  | null
  | bool (b : Bool)
  | int (n : Int)
  | str (s : String)
  | arr (l : List JValue)
  | obj (fields : List (String × JValue))
deriving Repr

/-- `FlagVariation` dataclass from `models.py`. -/
structure FlagVariation where
  name : String
  value : JValue
  description : String := ""
deriving Repr

/-- `TargetingRule` dataclass from `models.py`.  `rollout_percentage` is a
Python float; it is modelled by an exact rational (the only arithmetic
performed on it in the analysed code is a single division by 1000). -/
structure TargetingRule where
  name : String
  conditions : List JValue
  variation : String
  rollout_percentage : ℚ := 100
deriving Repr

/-- `FlagDefinition` dataclass from `models.py`. -/
structure FlagDefinition where
  name : String
  flag_type : FlagType
  enabled : Bool
  default_variation : String := ""
  variations : List FlagVariation := []
  targeting_rules : List TargetingRule := []
  dependencies : List String := []
  description : String := ""
  tags : List String := []
deriving Repr

/-- `FlagUsage` dataclass from `models.py`.  Line numbers are 1-indexed;
`end_line` defaults to `0`, and the analysed code tests it with Python
truthiness (`usage.end_line or usage.line_number`), so `0` plays the role
of "unset" exactly as in the source. -/
structure FlagUsage where
  flag_name : String
  file_path : String
  line_number : Nat
  column : Nat := 0
  end_line : Nat := 0
  end_column : Nat := 0
  containing_function : Option String := none
  containing_class : Option String := none
  check_type : String := "if"
  negated : Bool := false
  code_snippet : String := ""
deriving DecidableEq, Repr

/-- `Conflict` dataclass from `models.py`.  `conflicting_values` is a
Python dict, modelled as an insertion-ordered association list. -/
structure Conflict where
  conflict_id : String
  flags_involved : List String
  conflicting_values : List (String × Bool)
  severity : ConflictSeverity
  reason : String
  affected_code_locations : List String := []
  llm_explanation : Option String := none
deriving DecidableEq, Repr

/-- `DeadCodeBlock` dataclass from `models.py`. -/
structure DeadCodeBlock where
  file_path : String
  start_line : Nat
  end_line : Nat
  required_flags : List (String × Bool)
  reason : String
  code_snippet : String := ""
deriving DecidableEq, Repr

/-- `FlagDependency` dataclass from `models.py`. -/
structure FlagDependency where
  source_flag : String
  target_flag : String
  dependency_type : String
  source : String
deriving DecidableEq, Repr

/-! ## Association-list helpers (Python dict reads) -/

/-- First-match lookup in an association list: the read operation of a
Python dict represented by its insertion-ordered item list. -/
def alookup {κ β : Type} [DecidableEq κ] : List (κ × β) → κ → Option β
  | [], _ => none
  | (k, v) :: rest, key => if k = key then some v else alookup rest key

/-! ## Z3 SAT wrapper (z3_wrapper.py) -/

/-- A constraint asserted into the Z3 solver by `FlagSATSolver`.  These
four shapes (`add_requires`, `add_conflicts`, `add_always_on`,
`add_always_off`) are the only assertions the wrapper ever makes. -/
inductive ZConstraint where
  | requires (flag required_flag : String)
  | conflicts (flag1 flag2 : String)
  | alwaysOn (flag : String)
  | alwaysOff (flag : String)
deriving DecidableEq, Repr

/-- State of a `FlagSATSolver`.  `available` models `Z3_AVAILABLE`
(equivalently, `_solver is not None`: the two coincide after
`__init__`).  `vars` is the insertion-ordered key list of the
`_variables` dict (the `variables` property; Lean reserves that word); `constraints` are the assertions added to the
permanent theory. -/
structure FlagSATSolver where
  available : Bool
  constraints : List ZConstraint := []
  vars : List String := []
deriving DecidableEq, Repr

/-- Value of a variable under a (total-on-its-domain) valuation,
defaulting to `false` off the domain.  Every name a constraint mentions
is in the enumerated domain, so the default is never observed. -/
def valOf (v : List (String × Bool)) (n : String) : Bool :=
  (alookup v n).getD false

/-- Truth of one asserted constraint under a valuation. -/
def evalConstraint (v : List (String × Bool)) : ZConstraint → Bool
  | .requires f r => !valOf v f || valOf v r
  | .conflicts f g => !(valOf v f && valOf v g)
  | .alwaysOn f => valOf v f
  | .alwaysOff f => !valOf v f

/-- Names mentioned by a constraint. -/
def constraintNames : ZConstraint → List String
  | .requires f r => [f, r]
  | .conflicts f g => [f, g]
  | .alwaysOn f => [f]
  | .alwaysOff f => [f]

/-- All names relevant to a satisfiability query: those of the permanent
theory plus those of the queried partial assignment. -/
def satNames (cs : List ZConstraint) (state : List (String × Bool)) : List String :=
  ((cs.map constraintNames).flatten ++ state.map Prod.fst).dedup

/-- Exhaustive search over valuations of `pending`, extending `v`:
a sound and complete decision procedure for the wrapper's constraint
language, standing in for Z3. -/
def satSearch (cs : List ZConstraint) (state : List (String × Bool)) :
    List String → List (String × Bool) → Bool
  | [], v =>
      cs.all (evalConstraint v) &&
      state.all (fun p => alookup v p.1 == some p.2)
  | n :: rest, v =>
      satSearch cs state rest ((n, true) :: v) ||
      satSearch cs state rest ((n, false) :: v)

/-- Decide whether the permanent theory `cs` together with the equations
of the partial assignment `state` is satisfiable. -/
def checkSatisfiable (cs : List ZConstraint) (state : List (String × Bool)) : Bool :=
  satSearch cs state (satNames cs state) []

/-- Truth of one asserted constraint under a total valuation: the
declarative meaning of the Z3 assertions. -/
def constraintHolds (v : String → Bool) : ZConstraint → Prop
  | .requires f r => v f = true → v r = true
  | .conflicts f g => ¬(v f = true ∧ v g = true)
  | .alwaysOn f => v f = true
  | .alwaysOff f => v f = false

/-- Declarative satisfiability of the permanent theory together with a
partial assignment: what a sound and complete SAT backend decides.
`checkSatisfiable` is proved sound and complete for this semantics
below. -/
def theorySatisfiable (cs : List ZConstraint) (state : List (String × Bool)) : Prop :=
  ∃ v : String → Bool, (∀ c ∈ cs, constraintHolds v c) ∧ ∀ p ∈ state, v p.1 = p.2

/-- `FlagSATSolver.check_state_possible`.  With no backend the query
conservatively returns `True`; otherwise the solver pushes the equations
`var == value` and checks.  The mutation of the `_variables` dict by
`get_or_create_var` inside the Python method has no observable effect on
any satisfiability result, so the query is modelled as pure. -/
def checkStatePossible (s : FlagSATSolver) (flag_states : List (String × Bool)) : Bool :=
  if !s.available then true
  else checkSatisfiable s.constraints flag_states

/-- `FlagSATSolver.get_or_create_var`.  When Z3 is unavailable the
Python method returns `None` before touching `_variables`, so nothing is
registered. -/
def getOrCreateVar (s : FlagSATSolver) (flag_name : String) : FlagSATSolver :=
  if !s.available then s
  else if flag_name ∈ s.vars then s
  else { s with vars := s.vars ++ [flag_name] }

/-- `FlagSATSolver.add_requires`. -/
def addRequires (s : FlagSATSolver) (flag required_flag : String) : FlagSATSolver :=
  if !s.available then s
  else
    let s1 := getOrCreateVar s flag
    let s2 := getOrCreateVar s1 required_flag
    { s2 with constraints := s2.constraints ++ [.requires flag required_flag] }

/-- `FlagSATSolver.add_conflicts`. -/
def addConflicts (s : FlagSATSolver) (flag1 flag2 : String) : FlagSATSolver :=
  if !s.available then s
  else
    let s1 := getOrCreateVar s flag1
    let s2 := getOrCreateVar s1 flag2
    { s2 with constraints := s2.constraints ++ [.conflicts flag1 flag2] }

/-- `FlagSATSolver.add_always_on`. -/
def addAlwaysOn (s : FlagSATSolver) (flag : String) : FlagSATSolver :=
  if !s.available then s
  else
    let s1 := getOrCreateVar s flag
    { s1 with constraints := s1.constraints ++ [.alwaysOn flag] }

/-- `FlagSATSolver.add_always_off`. -/
def addAlwaysOff (s : FlagSATSolver) (flag : String) : FlagSATSolver :=
  if !s.available then s
  else
    let s1 := getOrCreateVar s flag
    { s1 with constraints := s1.constraints ++ [.alwaysOff flag] }

/-- The Python dict literal `{flag1: val1, flag2: val2}` built in
`get_impossible_states`: if the two keys coincide the dict has a single
entry holding the later value. -/
def mkPairState (flag1 : String) (val1 : Bool) (flag2 : String) (val2 : Bool) :
    List (String × Bool) :=
  if flag1 = flag2 then [(flag1, val2)] else [(flag1, val1), (flag2, val2)]

/-- The four value combinations tried for a pair of flags, in the order
of the two innermost loops of `get_impossible_states`
(`val1 in [True, False]`, `val2 in [True, False]`). -/
def statesWith (flag1 flag2 : String) : List (List (String × Bool)) :=
  [mkPairState flag1 true flag2 true,
   mkPairState flag1 true flag2 false,
   mkPairState flag1 false flag2 true,
   mkPairState flag1 false flag2 false]

/-- The two outer loops of `get_impossible_states`
(`for i, flag1 in enumerate(flags): for flag2 in flags[i+1:]`), keeping
the states found impossible, in source order. -/
def impossibleLoop (s : FlagSATSolver) : List String → List (List (String × Bool))
  | [] => []
  | flag1 :: rest =>
      (rest.map (fun flag2 =>
        (statesWith flag1 flag2).filter (fun st => !checkStatePossible s st))).flatten
      ++ impossibleLoop s rest

/-- `FlagSATSolver.get_impossible_states`.  Note that, exactly as in the
source, the `max_flags_per_state` parameter is accepted but never read:
the enumeration always checks pairs of distinct list positions only. -/
def getImpossibleStates (s : FlagSATSolver) (flags : List String)
    (max_flags_per_state : Nat := 2) : List (List (String × Bool)) :=
  if !s.available then []
  else impossibleLoop s flags

/-! ## Conflict detector (conflict_detector.py) -/

/-- `", ".flatten(l)`. -/
def joinComma (l : List String) : String := String.intercalate ", " l

/-- `ConflictDetector._create_conflict`.  The `conflict_id` is a fresh
`uuid` hex tag in the source; identifier freshness is outside the
embedding, so the id is modelled by the constant prefix `"C"`. -/
def createConflict (state : List (String × Bool)) : Conflict :=
  let flags := state.map Prod.fst
  let severity :=
    if state.all Prod.snd then ConflictSeverity.critical
    else if state.any Prod.snd then ConflictSeverity.high
    else ConflictSeverity.medium
  let enabled_flags := (state.filter (fun p => p.2)).map Prod.fst
  let disabled_flags := (state.filter (fun p => !p.2)).map Prod.fst
  let reason :=
    if !enabled_flags.isEmpty && !disabled_flags.isEmpty then
      "Enabling " ++ joinComma enabled_flags ++ " requires " ++
        joinComma disabled_flags ++ " to be enabled"
    else
      "Flags " ++ joinComma flags ++ " cannot be in this state together"
  { conflict_id := "C"
    flags_involved := flags
    conflicting_values := state
    severity := severity
    reason := reason }

/-- `ConflictDetector.load_flags` for one flag: register the variable,
assert always-off when disabled, assert one `requires` per dependency. -/
def loadFlag (s : FlagSATSolver) (flag : FlagDefinition) : FlagSATSolver :=
  let s1 := getOrCreateVar s flag.name
  let s2 := if !flag.enabled then addAlwaysOff s1 flag.name else s1
  flag.dependencies.foldl (fun acc dep => addRequires acc flag.name dep) s2

/-- `ConflictDetector.load_flags`. -/
def loadFlags (s : FlagSATSolver) (flags : List FlagDefinition) : FlagSATSolver :=
  flags.foldl loadFlag s

/-- `ConflictDetector.detect_all_conflicts`: one `Conflict` per state
returned by `get_impossible_states` over the registered variables. -/
def detectAllConflicts (s : FlagSATSolver) (max_flags_per_conflict : Nat := 2) :
    List Conflict :=
  (getImpossibleStates s s.vars max_flags_per_conflict).map createConflict

/-- `ConflictDetector.check_state`. -/
def checkState (s : FlagSATSolver) (flag_states : List (String × Bool)) :
    Option Conflict :=
  if checkStatePossible s flag_states then none
  else some (createConflict flag_states)

/-! ## Dead-code finder (dead_code.py) -/

/-- A single-quote character, used by the reason templates. -/
def sq : String := String.singleton (Char.ofNat 39)

/-- `DeadCodeFinder._generate_reason`. -/
def generateReason (usage : FlagUsage) (required_value : Bool) : String :=
  if required_value then
    "Code requires " ++ sq ++ usage.flag_name ++ sq ++
      " to be enabled, but it is always disabled"
  else
    "Code requires " ++ sq ++ usage.flag_name ++ sq ++
      " to be disabled, but it is always enabled"

/-- `usage.end_line or usage.line_number` (Python truthiness: `0` is
falsy).  The same expression appears in `dead_code.py` and, per usage,
in `path_analyzer.py`. -/
def usageEndLine (usage : FlagUsage) : Nat :=
  if usage.end_line ≠ 0 then usage.end_line else usage.line_number

/-- `DeadCodeFinder._check_usage`: required value is `not negated`; the
singleton assignment is queried and, if impossible, a block is built. -/
def checkUsage (s : FlagSATSolver) (usage : FlagUsage) : Option DeadCodeBlock :=
  let required_value := !usage.negated
  let state := [(usage.flag_name, required_value)]
  if !checkStatePossible s state then
    some { file_path := usage.file_path
           start_line := usage.line_number
           end_line := usageEndLine usage
           required_flags := state
           reason := generateReason usage required_value
           code_snippet := usage.code_snippet }
  else none

/-- `DeadCodeFinder.find_dead_code`. -/
def findDeadCode (s : FlagSATSolver) (usages : List FlagUsage) : List DeadCodeBlock :=
  usages.filterMap (checkUsage s)

/-! ## Path analyzer (path_analyzer.py) -/

/-- `CodePath` dataclass from `path_analyzer.py`. -/
structure CodePath where
  start_line : Nat
  end_line : Nat
  file_path : String
  required_flags : List (String × Bool) := []
  containing_function : Option String := none
  code_snippet : String := ""
deriving DecidableEq, Repr

/-- The grouping key `(usage.file_path, usage.containing_function)` of
`PathAnalyzer._build_paths`. -/
def usageKey (u : FlagUsage) : String × Option String :=
  (u.file_path, u.containing_function)

/-- One step of filling the `paths_by_location` dict: append the usage
to its key's bucket, creating the bucket at the end on first sight of
the key (Python dict insertion order). -/
def upsertGroup :
    List ((String × Option String) × List FlagUsage) → FlagUsage →
      List ((String × Option String) × List FlagUsage)
  | [], u => [(usageKey u, [u])]
  | (k, g) :: rest, u =>
      if k = usageKey u then (k, g ++ [u]) :: rest
      else (k, g) :: upsertGroup rest u

/-- The `paths_by_location` dict of `PathAnalyzer._build_paths`. -/
def groupByLocation (usages : List FlagUsage) :
    List ((String × Option String) × List FlagUsage) :=
  usages.foldl upsertGroup []

/-- One step of filling the `required_flags` dict: Python dict write,
overwriting in place on an existing key, appending otherwise. -/
def insertAssign : List (String × Bool) → String → Bool → List (String × Bool)
  | [], n, v => [(n, v)]
  | (k, w) :: rest, n, v =>
      if k = n then (k, v) :: rest else (k, w) :: insertAssign rest n v

/-- The `required_flags` dict of a path:
`required_flags[usage.flag_name] = not usage.negated` over the group. -/
def pathRequiredFlags (group : List FlagUsage) : List (String × Bool) :=
  group.foldl (fun m u => insertAssign m u.flag_name (!u.negated)) []

/-- Python `min` over a non-empty list (`0` on the never-taken empty
case, which `_build_paths` guards with `if not usages: continue`). -/
def listMinimum : List Nat → Nat
  | [] => 0
  | x :: xs => xs.foldl Nat.min x

/-- Python `max` over a non-empty list, as `listMinimum`. -/
def listMaximum : List Nat → Nat
  | [] => 0
  | x :: xs => xs.foldl Nat.max x

/-- The `CodePath` built from one bucket of `paths_by_location`:
aggregated requirements, and the min/max line span with
`u.end_line or u.line_number` as each usage's end. -/
def pathOfGroup (kg : (String × Option String) × List FlagUsage) : CodePath :=
  { start_line := listMinimum (kg.2.map FlagUsage.line_number)
    end_line := listMaximum (kg.2.map usageEndLine)
    file_path := kg.1.1
    required_flags := pathRequiredFlags kg.2
    containing_function := kg.1.2 }

/-- `PathAnalyzer._build_paths`: one `CodePath` per bucket of
`paths_by_location` (the `if not usages: continue` guard included). -/
def buildPaths (usages : List FlagUsage) : List CodePath :=
  (groupByLocation usages).filterMap (fun kg =>
    if kg.2.isEmpty then none else some (pathOfGroup kg))

/-! ## Python string helpers

Inputs handled character-wise, as `List Char`, to model Python's `str`
operations (`strip`, `startswith`, `endswith`, `in`, slicing)
exactly. -/

/-- The characters Python's default `str.strip` removes (ASCII range;
the analysed inputs are configuration text). -/
def pyWhitespace (c : Char) : Bool :=
  c = ' ' || c = '\t' || c = '\n' || c = '\r' || c = Char.ofNat 11 || c = Char.ofNat 12

/-- Python `str.lstrip()`. -/
def pyLstrip (l : List Char) : List Char := l.dropWhile pyWhitespace

/-- Python `str.rstrip()`. -/
def pyRstrip (l : List Char) : List Char :=
  (l.reverse.dropWhile pyWhitespace).reverse

/-- Python `str.strip()`. -/
def pyStrip (l : List Char) : List Char := pyRstrip (pyLstrip l)

/-- Python `str.lower()` (ASCII; the type aliases the parser compares
against are all ASCII). -/
def pyLower (s : String) : String := String.mk (s.data.map Char.toLower)

/-- Python's `needle in hay` on strings: substring containment. -/
def pyIn (needle hay : List Char) : Bool := decide (needle <:+: hay)

/-! ## Format auto-detection (parsers/base.py) -/

/-- The first branch condition of `BaseParser.detect_format`:
`content_stripped.startswith("---") or "features:" in content_stripped[:100]`. -/
def unleashIndicator (content : List Char) : Bool :=
  let content_stripped := pyStrip content
  "---".toList.isPrefixOf content_stripped ||
    pyIn "features:".toList (content_stripped.take 100)

/-- The second branch condition of `BaseParser.detect_format`:
`'"flags":' in content_stripped and '"variations":' in content_stripped`. -/
def launchdarklyIndicator (content : List Char) : Bool :=
  let content_stripped := pyStrip content
  pyIn "\"flags\":".toList content_stripped &&
    pyIn "\"variations\":".toList content_stripped

/-- `BaseParser.detect_format`. -/
def detect_format (content : List Char) : String :=
  let content_stripped := pyStrip content
  if "---".toList.isPrefixOf content_stripped ||
      pyIn "features:".toList (content_stripped.take 100) then "unleash"
  else if pyIn "\"flags\":".toList content_stripped &&
      pyIn "\"variations\":".toList content_stripped then "launchdarkly"
  else "generic"

/-! ## Python regex extractor negation check (parsers/ast/python.py) -/

/-- `PythonFlagExtractor._is_negated`: rstrip the text before the match,
then test `endswith("not ")` / `endswith("!")`.  (`prefix` is a reserved
word in Lean, hence `pref`.) -/
def is_negated (line : List Char) (match_start : Nat) : Bool :=
  let pref := pyRstrip (line.take match_start)
  "not ".toList.isSuffixOf pref || "!".toList.isSuffixOf pref

/-! ## Source scanner dispatch (parsers/ast/scanner.py) -/

/-- The two language extractors `_setup_extractors` can register. -/
inductive LanguageExtractor where
  | python
  | javascript
deriving DecidableEq, Repr

/-- The `_extractors` dict built by `SourceScanner._setup_extractors`
when both imports succeed (the only registrations in the source:
`.py` to the Python extractor and `.js`/`.ts`/`.jsx`/`.tsx` to the one
JavaScript extractor instance). -/
def extractors : List (String × LanguageExtractor) :=
  [(".py", .python),
   (".js", .javascript),
   (".ts", .javascript),
   (".jsx", .javascript),
   (".tsx", .javascript)]

/-- A source file as the scanner sees it: its extension (`path.suffix`)
and its path components (`path.parts`). -/
structure SourceFile where
  suffix : String
  parts : List String := []
deriving DecidableEq, Repr

/-- `SourceScanner.DEFAULT_EXCLUDES` (a set in the source; order is
irrelevant to the membership tests performed on it). -/
def DEFAULT_EXCLUDES : List String :=
  ["node_modules", "venv", ".venv", "__pycache__", ".git",
   "dist", "build", ".mypy_cache", ".pytest_cache"]

/-- The filter of `SourceScanner._iter_files`: keep files outside every
excluded directory whose extension has a registered extractor. -/
def iterFiles (exclude_patterns : List String) (files : List SourceFile) :
    List SourceFile :=
  files.filter (fun f =>
    !(exclude_patterns.any (fun e => e ∈ f.parts)) &&
      (alookup extractors f.suffix).isSome)

/-- `SourceScanner._scan_file`, parametrised by what each extractor
returns on each file: unknown extensions contribute no usages. -/
def scanFile (run : LanguageExtractor → SourceFile → List FlagUsage)
    (f : SourceFile) : List FlagUsage :=
  match alookup extractors f.suffix with
  | some e => run e f
  | none => []

/-! ## Python value helpers shared by the config parsers -/

/-- Python truthiness of a JSON value (`if not name: ...`). -/
def jFalsy : JValue → Bool
  | .null => true
  | .bool b => !b
  | .int n => n == 0
  | .str s => s.isEmpty
  | .arr l => l.isEmpty
  | .obj l => l.isEmpty

/-- Python truthiness, positively. -/
def jTruthy (v : JValue) : Bool := !jFalsy v

/-- Extract a JSON string, if the value is one. -/
def jStr? : JValue → Option String
  | .str s => some s
  | _ => none

/-- Python `str()` of a JSON scalar.  Containers would print their
`repr`; no checked claim inspects those strings, so they are rendered
by a fixed placeholder. -/
def pyStr : JValue → String
  | .null => "None"
  | .bool true => "True"
  | .bool false => "False"
  | .int n => toString n
  | .str s => s
  | .arr _ => "<list repr unmodelled>"
  | .obj _ => "<dict repr unmodelled>"

/-- A JSON value used where the source expects a string (Python is
duck-typed there; every analysed input supplies strings). -/
def jAsString (v : JValue) : String :=
  match v with
  | .str s => s
  | _ => pyStr v

/-- `data.get(key)` on a JSON object body. -/
def dGet (data : List (String × JValue)) (key : String) : Option JValue :=
  alookup data key

/-! ## Generic parser (parsers/generic.py) -/

/-- The `type_map` dict of `GenericParser._parse_flag`. -/
def type_map : List (String × FlagType) :=
  [("boolean", .boolean), ("bool", .boolean),
   ("string", .string), ("str", .string),
   ("number", .number), ("int", .number), ("float", .number),
   ("json", .json), ("object", .json)]

/-- One element of the variations comprehension of
`GenericParser._parse_flag`:
`name = v.get("name", f"var_{i}") if isinstance(v, dict) else str(v)`,
`value = v.get("value", v) if isinstance(v, dict) else v`. -/
def parseGenericVariation (i : Nat) (v : JValue) : FlagVariation :=
  match v with
  | .obj fields =>
      { name := jAsString ((dGet fields "name").getD (.str ("var_" ++ toString i)))
        value := (dGet fields "value").getD (.obj fields) }
  | _ => { name := pyStr v, value := v }

/-- The `enumerate(variations_data)` comprehension. -/
def parseGenericVariationsAux : Nat → List JValue → List FlagVariation
  | _, [] => []
  | i, v :: rest => parseGenericVariation i v :: parseGenericVariationsAux (i + 1) rest

/-- `GenericParser._parse_flag`.  The record is the JSON object of one
flag.  The only raise in the source body is the missing-name check;
a non-string `type` value would crash Python's `.lower()` and is
modelled as the corresponding error.  Non-string entries inside
`dependencies`/`tags` lists are not modelled (no claim touches them). -/
def genericParseFlag (data : List (String × JValue)) : Except String FlagDefinition :=
  let name_val := (dGet data "name").getD ((dGet data "key").getD (.str ""))
  if jFalsy name_val then .error "Flag missing required 'name' field"
  else
    match (dGet data "type").getD (.str "boolean") with
    | .str ts =>
        let type_str := pyLower ts
        let flag_type := (alookup type_map type_str).getD .boolean
        let enabled := jTruthy ((dGet data "enabled").getD ((dGet data "on").getD (.bool true)))
        let variations_data :=
          match (dGet data "variations").getD (.arr []) with
          | .arr l => l
          | _ => []
        let variations :=
          if !variations_data.isEmpty then parseGenericVariationsAux 0 variations_data
          else [{ name := "on", value := .bool true }, { name := "off", value := .bool false }]
        let dependencies :=
          match (dGet data "dependencies").getD ((dGet data "requires").getD (.arr [])) with
          | .str s => [s]
          | .arr l => l.filterMap jStr?
          | _ => []
        let default_variation :=
          jAsString ((dGet data "default").getD
            (.str (match variations with | v :: _ => v.name | [] => "")))
        .ok { name := jAsString name_val
              flag_type := flag_type
              enabled := enabled
              default_variation := default_variation
              variations := variations
              targeting_rules := []
              dependencies := dependencies
              description := jAsString ((dGet data "description").getD (.str ""))
              tags :=
                match (dGet data "tags").getD (.arr []) with
                | .arr l => l.filterMap jStr?
                | _ => [] }
    | _ => .error "AttributeError: type value has no attribute lower"

/-! ## LaunchDarkly parser (parsers/launchdarkly.py) -/

/-- `LaunchDarklyParser._detect_type`.  Python checks `bool` before
`int`/`float`; the constructors keep them apart.  (JSON floats are not
modelled; they would also map to `number`.) -/
def ldDetectType (variations : List JValue) : FlagType :=
  match variations with
  | [] => .boolean
  | first :: _ =>
      match first with
      | .bool _ => .boolean
      | .str _ => .string
      | .int _ => .number
      | _ => .json

/-- The `enumerate(variations)` loop of
`LaunchDarklyParser._parse_variations`. -/
def ldParseVariationsAux : Nat → List JValue → List FlagVariation
  | _, [] => []
  | i, value :: rest =>
      (match value with
       | .bool b => { name := if b then "on" else "off", value := value }
       | _ => { name := "variation_" ++ toString i, value := value }) ::
        ldParseVariationsAux (i + 1) rest

/-- `LaunchDarklyParser._parse_variations`. -/
def ldParseVariations (variations : List JValue) : List FlagVariation :=
  ldParseVariationsAux 0 variations

/-- Python list indexing `l[i]` with negative-index semantics;
`none` models the `IndexError` raise. -/
def pyListGet {α : Type} (l : List α) (i : Int) : Option α :=
  let j := if i < 0 then (l.length : Int) + i else i
  if 0 ≤ j ∧ j < (l.length : Int) then l.get? j.toNat else none

/-- Lines 74-81 of `LaunchDarklyParser._parse_flag`: the
`default_variation` expression
`variations[default_idx].name if default_idx < len(variations) else ""`.
`none` models an escaping `IndexError`. -/
def ldDefaultVariation (variations : List FlagVariation) (default_idx : Int) :
    Option String :=
  if default_idx < (variations.length : Int) then
    (pyListGet variations default_idx).map FlagVariation.name
  else some ""

/-- One rule of `LaunchDarklyParser._parse_rules`.  `none` models the
`IndexError` of `rollout.get("variations", [{}])[0]` on an explicitly
empty `rollout.variations` list.  Values of unexpected JSON type inside
a rule fall back to the source's defaults (a comment-level
approximation; no checked claim touches targeting rules). -/
def ldParseRule (i : Nat) (rule : List (String × JValue)) : Option TargetingRule :=
  let conditions := match (dGet rule "clauses").getD (.arr []) with | .arr l => l | _ => []
  let variation_idx : Int :=
    match (dGet rule "variation").getD (.int 0) with | .int n => n | _ => 0
  let rollout := match (dGet rule "rollout").getD (.obj []) with | .obj l => l | _ => []
  let rollout_variations :=
    match (dGet rollout "variations").getD (.arr [.obj []]) with | .arr l => l | _ => []
  match rollout_variations with
  | [] => none
  | rv :: _ =>
      let weight : Int :=
        match rv with
        | .obj f => (match (dGet f "weight").getD (.int 100000) with | .int n => n | _ => 100000)
        | _ => 100000
      some { name := match dGet rule "id" with | some (.str s) => s | _ => "rule_" ++ toString i
             conditions := conditions
             variation := "variation_" ++ toString variation_idx
             rollout_percentage := (weight : ℚ) / 1000 }

/-- The rules loop of `LaunchDarklyParser._parse_rules`;
non-object rule entries would crash Python's `.get` and are `none`. -/
def ldParseRulesAux : Nat → List JValue → Option (List TargetingRule)
  | _, [] => some []
  | i, r :: rest =>
      match r with
      | .obj fields =>
          match ldParseRule i fields, ldParseRulesAux (i + 1) rest with
          | some tr, some trs => some (tr :: trs)
          | _, _ => none
      | _ => none

/-- `LaunchDarklyParser._parse_flag`.  `none` models an escaping
exception (`IndexError` from rules or from a fallthrough variation
index below `-len(variations)`).  JSON values of unexpected type in
duck-typed positions (a non-string `key`, a non-array `variations`)
fall back to the source's defaults rather than modelling the exact
Python crash; no checked claim exercises those inputs. -/
def ldParseFlag (key : String) (data : List (String × JValue)) : Option FlagDefinition :=
  let name := match dGet data "key" with | some (.str s) => s | _ => key
  let variations_raw :=
    match (dGet data "variations").getD (.arr [.bool true, .bool false]) with
    | .arr l => l
    | _ => []
  let flag_type := ldDetectType variations_raw
  let variations := ldParseVariations variations_raw
  let dependencies :=
    (match (dGet data "prerequisites").getD (.arr []) with | .arr l => l | _ => []).filterMap
      (fun (p : JValue) =>
        match p with
        | .obj fields => (dGet fields "key").bind jStr?
        | _ => none)
  let rules_raw := match (dGet data "rules").getD (.arr []) with | .arr l => l | _ => []
  match ldParseRulesAux 0 rules_raw with
  | none => none
  | some targeting_rules =>
      let enabled := jTruthy ((dGet data "on").getD (.bool true))
      let fallthrough :=
        match (dGet data "fallthrough").getD (.obj []) with | .obj l => l | _ => []
      let default_idx : Int :=
        match (dGet fallthrough "variation").getD (.int 0) with | .int n => n | _ => 0
      match ldDefaultVariation variations default_idx with
      | none => none
      | some default_variation =>
          some { name := name
                 flag_type := flag_type
                 enabled := enabled
                 default_variation := default_variation
                 variations := variations
                 targeting_rules := targeting_rules
                 dependencies := dependencies
                 description := match dGet data "description" with | some (.str s) => s | _ => ""
                 tags :=
                   match (dGet data "tags").getD (.arr []) with
                   | .arr l => l.filterMap jStr?
                   | _ => [] }

/-! ## Concrete instances used by counterexamples and witnesses -/

/-- A loaded solver holding one flag `a` with `enabled = false`. -/
def oneDisabledFlagSolver : FlagSATSolver :=
  loadFlags { available := true }
    [{ name := "a", flag_type := .boolean, enabled := false }]

/-- A loaded solver holding one flag `f` with `enabled = false`. -/
def deadSolver : FlagSATSolver :=
  loadFlags { available := true }
    [{ name := "f", flag_type := .boolean, enabled := false }]

/-- A non-negated check of flag `f` at `app.py:10`. -/
def deadUsage : FlagUsage :=
  { flag_name := "f", file_path := "app.py", line_number := 10 }

/-- A valid JSON document whose top level is an array (so it has no
keys at all, in particular no top-level `features:` sequence key) and
which does not start with a document separator; the substring
`features:` occurs only inside a string element. -/
def featuresInStringDoc : List Char := "[\"features: off\"]".toList

/-- A valid JSON document whose top level is an array (so there is no
top-level `flags` object) but whose element object makes both
`"flags":` and `"variations":` occur as substrings. -/
def nestedFlagsDoc : List Char :=
  "[\x7b\"flags\": 0, \"variations\": 0\x7d]".toList

/-- The source line `if not is_enabled("x"):`; the regex match of the
flag-check pattern starts at index 7, immediately after `not `. -/
def negatedCheckLine : List Char := "if not is_enabled(\"x\"):".toList

/-- A generic-dialect flag record whose `type` is outside the alias
set. -/
def unknownTypeRecord : List (String × JValue) :=
  [("name", .str "f"), ("type", .str "whatever")]

/-- A flag usage returned by a hypothetical extractor, to exhibit that
dispatch, not the extractor, drops unmapped extensions. -/
def someUsage : FlagUsage :=
  { flag_name := "u", file_path := "x", line_number := 1 }

/-- A Python file with the `.pyw` extension. -/
def pywFile : SourceFile := { suffix := ".pyw" }

/-- A Rust file, whose extension no extractor claims. -/
def rsFile : SourceFile := { suffix := ".rs" }

/-- A positive check of flag `a` at `f.py:1` inside function `g`. -/
def posUsage : FlagUsage :=
  { flag_name := "a", file_path := "f.py", line_number := 1,
    containing_function := some "g", negated := false }

/-- A negated check of the same flag `a` at `f.py:2` in the same
function. -/
def negUsage : FlagUsage :=
  { flag_name := "a", file_path := "f.py", line_number := 2,
    containing_function := some "g", negated := true }

/-- The single path `_build_paths` produces from
`[posUsage, negUsage]`. -/
def bothPolaritiesPath : CodePath :=
  { start_line := 1, end_line := 2, file_path := "f.py",
    required_flags := [("a", false)], containing_function := some "g" }

/-- A two-element LaunchDarkly variations array. -/
def twoVariationsRaw : List JValue := [.bool true, .bool false]

end FlagGuard

namespace FlagGuard

/-! ## General helper lemmas -/

theorem alookup_eq_none {κ β : Type} [DecidableEq κ] (l : List (κ × β)) (k : κ) :
    alookup l k = none ↔ k ∉ l.map Prod.fst := by
  induction l with
  | nil => simp [alookup]
  | cons p rest ih =>
      obtain ⟨k', v⟩ := p
      by_cases h : k' = k
      · subst h
        simp [alookup]
      · simp [alookup, h, ih, Ne.symm h]

theorem filterMap_const_none {α β : Type} (l : List α) :
    l.filterMap (fun _ => (none : Option β)) = [] := by
  induction l with
  | nil => rfl
  | cons a rest ih => simp [List.filterMap_cons, ih]

/-! ## Soundness and completeness of the SAT decision procedure

These theorems certify that the executable `checkSatisfiable` standing
in for Z3 decides exactly the declarative satisfiability
`theorySatisfiable`, so the analysis-level theorems below inherit the
intended meaning of "(un)satisfiable under the permanent theory". -/

theorem evalConstraint_iff (v : List (String × Bool)) (c : ZConstraint) :
    evalConstraint v c = true ↔ constraintHolds (fun n => valOf v n) c := by
  cases c with
  | requires f r =>
      cases h1 : valOf v f <;> cases h2 : valOf v r <;>
        simp [evalConstraint, constraintHolds, h1, h2]
  | conflicts f g =>
      cases h1 : valOf v f <;> cases h2 : valOf v g <;>
        simp [evalConstraint, constraintHolds, h1, h2]
  | alwaysOn f => simp [evalConstraint, constraintHolds]
  | alwaysOff f =>
      cases h1 : valOf v f <;> simp [evalConstraint, constraintHolds, h1]

theorem satSearch_sound (cs : List ZConstraint) (state : List (String × Bool)) :
    ∀ (pending : List String) (v : List (String × Bool)),
      satSearch cs state pending v = true →
      ∃ v0 : String → Bool,
        (∀ c ∈ cs, constraintHolds v0 c) ∧ ∀ p ∈ state, v0 p.1 = p.2 := by
  intro pending
  induction pending with
  | nil =>
      intro v h
      simp only [satSearch, Bool.and_eq_true, List.all_eq_true] at h
      refine ⟨fun n => valOf v n,
        fun c hc => (evalConstraint_iff v c).mp (h.1 c hc), ?_⟩
      intro p hp
      have h2 := h.2 p hp
      rw [beq_iff_eq] at h2
      simp [valOf, h2]
  | cons n rest ih =>
      intro v h
      simp only [satSearch, Bool.or_eq_true] at h
      rcases h with h | h
      · exact ih _ h
      · exact ih _ h

theorem constraintHolds_congr (v v' : String → Bool) (c : ZConstraint)
    (h : ∀ n ∈ constraintNames c, v n = v' n) :
    constraintHolds v c ↔ constraintHolds v' c := by
  cases c with
  | requires f r =>
      rw [constraintHolds, constraintHolds,
        h f (by simp [constraintNames]), h r (by simp [constraintNames])]
  | conflicts f g =>
      rw [constraintHolds, constraintHolds,
        h f (by simp [constraintNames]), h g (by simp [constraintNames])]
  | alwaysOn f => rw [constraintHolds, constraintHolds, h f (by simp [constraintNames])]
  | alwaysOff f => rw [constraintHolds, constraintHolds, h f (by simp [constraintNames])]

theorem satSearch_complete (cs : List ZConstraint) (state : List (String × Bool)) :
    ∀ (pending : List String) (v : List (String × Bool)) (v0 : String → Bool),
      (∀ c ∈ cs, constraintHolds v0 c) →
      (∀ p ∈ state, v0 p.1 = p.2) →
      (∀ n, n ∉ pending → valOf v n = v0 n) →
      (∀ n ∈ state.map Prod.fst, n ∉ pending → alookup v n = some (v0 n)) →
      satSearch cs state pending v = true := by
  intro pending
  induction pending with
  | nil =>
      intro v v0 hc hs hagree hkeys
      have hv : ∀ n, valOf v n = v0 n := fun n => hagree n (by simp)
      have hfun : (fun n => valOf v n) = v0 := funext hv
      simp only [satSearch, Bool.and_eq_true, List.all_eq_true]
      constructor
      · intro c hcmem
        rw [evalConstraint_iff, hfun]
        exact hc c hcmem
      · intro p hp
        have h1 : alookup v p.1 = some (v0 p.1) :=
          hkeys p.1 (List.mem_map.mpr ⟨p, hp, rfl⟩) (by simp)
        rw [beq_iff_eq, h1, hs p hp]
  | cons n rest ih =>
      intro v v0 hc hs hagree hkeys
      have hstep : ∀ b, b = v0 n → satSearch cs state rest ((n, b) :: v) = true := by
        intro b hb
        apply ih ((n, b) :: v) v0 hc hs
        · intro m hm
          by_cases hmn : n = m
          · subst hmn
            simp [valOf, alookup, hb]
          · have hmpend : m ∉ n :: rest := by
              simp only [List.mem_cons, not_or]
              exact ⟨fun he => hmn he.symm, hm⟩
            have := hagree m hmpend
            simpa [valOf, alookup, hmn] using this
        · intro m hmkeys hm
          by_cases hmn : n = m
          · subst hmn
            simp [alookup, hb]
          · have hmpend : m ∉ n :: rest := by
              simp only [List.mem_cons, not_or]
              exact ⟨fun he => hmn he.symm, hm⟩
            have := hkeys m hmkeys hmpend
            simpa [alookup, hmn] using this
      rw [satSearch, Bool.or_eq_true]
      cases hv0 : v0 n
      · exact Or.inr (hstep false hv0.symm)
      · exact Or.inl (hstep true hv0.symm)

theorem checkSatisfiable_iff (cs : List ZConstraint) (state : List (String × Bool)) :
    checkSatisfiable cs state = true ↔ theorySatisfiable cs state := by
  constructor
  · intro h
    exact satSearch_sound cs state (satNames cs state) [] h
  · rintro ⟨v0, hc, hs⟩
    have hsub : ∀ p ∈ state, p.1 ∈ satNames cs state := by
      intro p hp
      simp only [satNames, List.mem_dedup, List.mem_append]
      exact Or.inr (List.mem_map.mpr ⟨p, hp, rfl⟩)
    have hcsub : ∀ c ∈ cs, ∀ n ∈ constraintNames c, n ∈ satNames cs state := by
      intro c hc' n hn
      simp only [satNames, List.mem_dedup, List.mem_append]
      exact Or.inl (List.mem_flatten.mpr
        ⟨constraintNames c, List.mem_map.mpr ⟨c, hc', rfl⟩, hn⟩)
    refine satSearch_complete cs state (satNames cs state) []
      (fun n => if n ∈ satNames cs state then v0 n else false) ?_ ?_ ?_ ?_
    · intro c hcmem
      rw [constraintHolds_congr _ v0 c (fun n hn => by simp [hcsub c hcmem n hn])]
      exact hc c hcmem
    · intro p hp
      simp only [hsub p hp, if_true]
      exact hs p hp
    · intro n hn
      simp only [valOf, alookup, Option.getD_none]
      rw [if_neg hn]
    · intro n hnkeys hn
      exfalso
      obtain ⟨p, hp, rfl⟩ := List.mem_map.mp hnkeys
      exact hn (hsub p hp)

/-- The wrapper's query decides declarative satisfiability whenever a
backend is linked. -/
theorem checkStatePossible_iff (s : FlagSATSolver) (h : s.available = true)
    (state : List (String × Bool)) :
    checkStatePossible s state = true ↔ theorySatisfiable s.constraints state := by
  rw [checkStatePossible, h]
  simp only [Bool.not_true, Bool.false_eq_true, if_false]
  exact checkSatisfiable_iff s.constraints state

/-! ## C4: graceful degradation without a SAT backend -/

/-- C4 (confirmed): when no SAT backend is available, every
`check_state_possible` query answers `True`, `get_impossible_states`
returns the empty list, and consequently `detect_all_conflicts` and
`find_dead_code` report nothing.  (All embedded operations are total,
so no exception can be modelled to escape.) -/
theorem solver_unavailable_degrades_gracefully (s : FlagSATSolver)
    (h : s.available = false) :
    (∀ state, checkStatePossible s state = true) ∧
    (∀ flags k, getImpossibleStates s flags k = []) ∧
    (∀ k, detectAllConflicts s k = []) ∧
    (∀ state, checkState s state = none) ∧
    (∀ usages, findDeadCode s usages = []) := by
  have hcp : ∀ state, checkStatePossible s state = true := by
    intro state
    simp [checkStatePossible, h]
  have himp : ∀ flags k, getImpossibleStates s flags k = [] := by
    intro flags k
    simp [getImpossibleStates, h]
  refine ⟨hcp, himp, ?_, ?_, ?_⟩
  · intro k
    simp [detectAllConflicts, himp]
  · intro state
    simp [checkState, hcp]
  · intro usages
    have hcu : ∀ u, checkUsage s u = none := by
      intro u
      simp [checkUsage, hcp]
    rw [findDeadCode]
    induction usages with
    | nil => rfl
    | cons u rest ih => simp [List.filterMap_cons, hcu u, ih]

/-- Witness for C4 at a concrete unavailable solver, concrete query,
and concrete usage list. -/
theorem solver_unavailable_degrades_gracefully_witness :
    checkStatePossible { available := false } [("x", true)] = true ∧
    getImpossibleStates { available := false } ["x", "y"] 2 = [] ∧
    detectAllConflicts { available := false } 2 = [] ∧
    checkState { available := false } [("x", true)] = none ∧
    findDeadCode { available := false } [deadUsage] = [] := by
  have h := solver_unavailable_degrades_gracefully { available := false } rfl
  exact ⟨h.1 _, h.2.1 _ _, h.2.2.1 _, h.2.2.2.1 _, h.2.2.2.2 _⟩

/-! ## C3: the severity law -/

/-- C3 (confirmed): for a conflict created from a non-empty partial
assignment, severity is `critical` iff every value is true, `medium`
iff every value is false, and `high` in every remaining case. -/
theorem conflict_severity_law (state : List (String × Bool)) (h : state ≠ []) :
    ((createConflict state).severity = .critical ↔ state.all Prod.snd = true) ∧
    ((createConflict state).severity = .medium ↔ state.all (fun p => !p.2) = true) ∧
    ((createConflict state).severity = .high ↔
      ¬state.all Prod.snd = true ∧ ¬state.all (fun p => !p.2) = true) := by
  obtain ⟨q, hq⟩ := List.exists_mem_of_ne_nil state h
  by_cases hall : state.all Prod.snd = true
  · have hsev : (createConflict state).severity = .critical := by
      simp [createConflict, hall]
    have hnf : ¬state.all (fun p => !p.2) = true := by
      intro hf
      have h1 := List.all_eq_true.mp hall q hq
      have h2 := List.all_eq_true.mp hf q hq
      simp [h1] at h2
    refine ⟨by simp [hsev, hall], by simp [hsev, hnf], by simp [hsev, hall]⟩
  · by_cases hany : state.any Prod.snd = true
    · have hsev : (createConflict state).severity = .high := by
        simp [createConflict, hall, hany]
      have hnf : ¬state.all (fun p => !p.2) = true := by
        intro hf
        obtain ⟨x, hx, hpx⟩ := List.any_eq_true.mp hany
        have := List.all_eq_true.mp hf x hx
        simp [hpx] at this
      refine ⟨by simp [hsev, hall], by simp [hsev, hnf], by simp [hsev, hall, hnf]⟩
    · have hsev : (createConflict state).severity = .medium := by
        simp [createConflict, hall, hany]
      have hf : state.all (fun p => !p.2) = true := by
        refine List.all_eq_true.mpr ?_
        intro x hx
        have : ¬x.2 = true := fun hx2 => hany (List.any_eq_true.mpr ⟨x, hx, hx2⟩)
        simp [Bool.not_eq_true] at this ⊢
        exact this
      refine ⟨by simp [hsev, hall], by simp [hsev, hf], by simp [hsev, hf]⟩

/-- Witness for C3 at the concrete non-empty assignment
`{child: true, parent: false}`. -/
theorem conflict_severity_law_witness :
    ((createConflict [("child", true), ("parent", false)]).severity = .critical ↔
      ([("child", true), ("parent", false)] : List (String × Bool)).all Prod.snd = true) ∧
    ((createConflict [("child", true), ("parent", false)]).severity = .medium ↔
      ([("child", true), ("parent", false)] : List (String × Bool)).all (fun p => !p.2) = true) ∧
    ((createConflict [("child", true), ("parent", false)]).severity = .high ↔
      ¬([("child", true), ("parent", false)] : List (String × Bool)).all Prod.snd = true ∧
      ¬([("child", true), ("parent", false)] : List (String × Bool)).all (fun p => !p.2) = true) :=
  conflict_severity_law [("child", true), ("parent", false)] (by simp)

/-! ## C2: dead-code finder on singleton assignments -/

/-- C2 (confirmed): a usage yields a dead-code block iff the singleton
assignment `{flag: not negated}` is unsatisfiable; the block spans
`line_number .. (end_line or line_number)` and its reason names the
flag as always-disabled when the required value is true, always-enabled
when it is false. -/
theorem find_dead_code_singleton_spec (s : FlagSATSolver)
    (usages : List FlagUsage) (u : FlagUsage) (hu : u ∈ usages) :
    ((checkUsage s u).isSome ↔
      checkStatePossible s [(u.flag_name, !u.negated)] = false) ∧
    (∀ b, checkUsage s u = some b →
      b ∈ findDeadCode s usages ∧
      b.file_path = u.file_path ∧
      b.start_line = u.line_number ∧
      b.end_line = (if u.end_line = 0 then u.line_number else u.end_line) ∧
      b.required_flags = [(u.flag_name, !u.negated)] ∧
      b.reason = (if u.negated then
          "Code requires " ++ sq ++ u.flag_name ++ sq ++
            " to be disabled, but it is always enabled"
        else
          "Code requires " ++ sq ++ u.flag_name ++ sq ++
            " to be enabled, but it is always disabled")) := by
  constructor
  · cases hcp : checkStatePossible s [(u.flag_name, !u.negated)] with
    | false => simp [checkUsage, hcp]
    | true => simp [checkUsage, hcp]
  · intro b hb
    have hcp : checkStatePossible s [(u.flag_name, !u.negated)] = false := by
      cases hcp : checkStatePossible s [(u.flag_name, !u.negated)] with
      | false => rfl
      | true => simp [checkUsage, hcp] at hb
    have hmem : b ∈ findDeadCode s usages :=
      List.mem_filterMap.mpr ⟨u, hu, hb⟩
    simp only [checkUsage, hcp, Bool.not_false, if_true] at hb
    cases hb
    refine ⟨hmem, rfl, rfl, ?_, rfl, ?_⟩
    · by_cases he : u.end_line = 0 <;> simp [usageEndLine, he]
    · cases hneg : u.negated <;> simp [generateReason, hneg]

/-- Witness for C2: the always-off flag `f` makes the usage at
`app.py:10` dead. -/
theorem find_dead_code_singleton_spec_witness :
    (checkUsage deadSolver deadUsage).isSome ↔
      checkStatePossible deadSolver [(deadUsage.flag_name, !deadUsage.negated)] = false :=
  (find_dead_code_singleton_spec deadSolver [deadUsage] deadUsage
    (List.mem_singleton.mpr rfl)).1

/-! ## C5: format auto-detection -/

/-- C5 (counterexample): the detector's indicators are textual, not the
claim's structural ones, and the claim fails at two concrete valid
documents.  `featuresInStringDoc` is a top-level JSON array (first
non-whitespace character `[`, so the document has no keys, in
particular no top-level `features:` sequence key) that does not start
with a document separator — the claim demands `generic` — yet the code
returns `unleash`, because `features:` occurs inside a string element
within the first 100 characters.  `nestedFlagsDoc` is a top-level JSON
array (again first character `[`, so there is no top-level `flags`
object) with no Unleash indicator of any kind — the claim demands
`generic` — yet the code returns `launchdarkly`, because `"flags":`
and `"variations":` occur as substrings inside the nested element. -/
theorem detect_format_textual_indicators_counterexample :
    (pyStrip featuresInStringDoc).head? = some '[' ∧
    "---".toList.isPrefixOf (pyStrip featuresInStringDoc) = false ∧
    detect_format featuresInStringDoc = "unleash" ∧
    detect_format featuresInStringDoc ≠ "generic" ∧
    (pyStrip nestedFlagsDoc).head? = some '[' ∧
    "---".toList.isPrefixOf (pyStrip nestedFlagsDoc) = false ∧
    pyIn "features:".toList (pyStrip nestedFlagsDoc) = false ∧
    detect_format nestedFlagsDoc = "launchdarkly" ∧
    detect_format nestedFlagsDoc ≠ "generic" := by
  refine ⟨by decide, by decide, by decide, by decide, by decide,
    by decide, by decide, by decide, by decide⟩

/-- C5 (amended): detection is by textual indicators, checked in a
fixed order: `unleash` exactly when the stripped content starts with
`---` or the substring `features:` occurs in its first 100 characters
(whether or not it is a top-level key); otherwise `launchdarkly`
exactly when the substrings `"flags":` and `"variations":` both occur
anywhere (whether or not a top-level `flags` object exists); and
`generic` in every other case.  Detection is deterministic, and when
both textual indicator sets hold the first-checked Unleash test
wins. -/
theorem detect_format_first_match_spec (content : List Char) :
    (detect_format content = "unleash" ↔ unleashIndicator content = true) ∧
    (detect_format content = "launchdarkly" ↔
      unleashIndicator content = false ∧ launchdarklyIndicator content = true) ∧
    (detect_format content = "generic" ↔
      unleashIndicator content = false ∧ launchdarklyIndicator content = false) := by
  have hdef : detect_format content =
      if unleashIndicator content then "unleash"
      else if launchdarklyIndicator content then "launchdarkly"
      else "generic" := rfl
  cases hu : unleashIndicator content <;> cases hl : launchdarklyIndicator content <;>
    simp only [hdef, hu, hl, if_true, if_false, Bool.false_eq_true, Bool.true_eq_false] <;>
    simp

/-! ## C6: the regex fallback never detects `not ` negation -/

theorem dropWhile_head_false (p : Char → Bool) :
    ∀ (l : List Char) (c : Char), (l.dropWhile p).head? = some c → p c = false := by
  intro l
  induction l with
  | nil => intro c hc; simp [List.dropWhile] at hc
  | cons a rest ih =>
      intro c hc
      by_cases hpa : p a = true
      · rw [List.dropWhile_cons_of_pos hpa] at hc
        exact ih c hc
      · rw [List.dropWhile_cons_of_neg hpa] at hc
        simp at hc
        subst hc
        exact Bool.eq_false_iff.mpr hpa

theorem pyRstrip_getLast_not_whitespace (l : List Char) (c : Char)
    (h : (pyRstrip l).getLast? = some c) : pyWhitespace c = false := by
  have h' : (l.reverse.dropWhile pyWhitespace).head? = some c := by
    rw [pyRstrip] at h
    rwa [List.getLast?_reverse] at h
  exact dropWhile_head_false pyWhitespace l.reverse c h'

theorem not_suffix_of_pyRstrip (l : List Char) :
    "not ".toList.isSuffixOf (pyRstrip l) = false := by
  cases hs : "not ".toList.isSuffixOf (pyRstrip l)
  · rfl
  · exfalso
    have hsuf : "not ".toList <:+ pyRstrip l := by
      rw [← List.isSuffixOf_iff_suffix]
      exact hs
    obtain ⟨t, ht⟩ := hsuf
    have hlast : (pyRstrip l).getLast? = some ' ' := by
      rw [← ht]
      have : t ++ "not ".toList = (t ++ ['n', 'o', 't']) ++ [' '] := by simp
      rw [this, List.getLast?_concat]
    have := pyRstrip_getLast_not_whitespace l ' ' hlast
    simp [pyWhitespace] at this

/-- C6 (code bug): in the regex fallback, `_is_negated` rstrips the
text before the match and only then tests `endswith("not ")`; the
trailing space has just been stripped, so the `not ` branch can never
fire and `is_negated` degenerates to the `!` test.  In particular the
line `if not is_enabled("x"):` (match at index 7, i.e. at
`is_enabled`, with the text immediately preceding it ending in
`not `) yields `negated = false`, while the extractor's own unit test
and the specification require `true`. -/
theorem regex_not_negation_never_detected :
    (∀ (line : List Char) (i : Nat),
      is_negated line i = "!".toList.isSuffixOf (pyRstrip (line.take i))) ∧
    "not ".toList.isSuffixOf (negatedCheckLine.take 7) = true ∧
    (negatedCheckLine.drop 7).take 10 = "is_enabled".toList ∧
    is_negated negatedCheckLine 7 = false := by
  refine ⟨?_, by decide, by decide, by decide⟩
  intro line i
  have h1 := not_suffix_of_pyRstrip (line.take i)
  simp only [is_negated]
  rw [h1, Bool.false_or]

/-! ## C7: unknown type aliases in the generic parser -/

/-- C7 (counterexample): a record whose `type` is the unknown alias
`whatever` parses without any error and is silently assigned the
boolean kind; no invalid-type-alias error exists in the code. -/
theorem generic_unknown_type_parses_without_error :
    (genericParseFlag unknownTypeRecord).toOption.isSome = true ∧
    (genericParseFlag unknownTypeRecord).toOption.map FlagDefinition.flag_type =
      some .boolean ∧
    (genericParseFlag unknownTypeRecord).toOption.map FlagDefinition.name = some "f" := by
  refine ⟨by decide, by decide, by decide⟩

/-- C7 (amended): for every generic flag record with a resolvable name
whose `type` string is outside the alias set, `_parse_flag` succeeds and
silently assigns the boolean kind (instead of reporting an
`UnknownFlagKind` error). -/
theorem generic_unknown_type_silently_boolean
    (data : List (String × JValue)) (ts : String)
    (htype : dGet data "type" = some (.str ts))
    (hunknown : pyLower ts ∉ type_map.map Prod.fst)
    (hname : jFalsy ((dGet data "name").getD ((dGet data "key").getD (.str ""))) = false) :
    ∃ f, genericParseFlag data = .ok f ∧ f.flag_type = .boolean := by
  have hl : alookup type_map (pyLower ts) = none := (alookup_eq_none _ _).mpr hunknown
  simp only [genericParseFlag, hname, Bool.false_eq_true, if_false, htype, Option.getD_some]
  exact ⟨_, rfl, by simp [hl]⟩

/-- Witness for C7's amended claim at the concrete record
`{name: "f", type: "whatever"}`. -/
theorem generic_unknown_type_silently_boolean_witness :
    ∃ f, genericParseFlag unknownTypeRecord = .ok f ∧ f.flag_type = .boolean :=
  generic_unknown_type_silently_boolean unknownTypeRecord "whatever" rfl
    (by decide) (by decide)

/-! ## C8: extension dispatch in the source scanner -/

/-- C8 (counterexample): none of `.pyw`, `.mjs`, `.cjs`, `.mts`, `.cts`
has a registered extractor, and a `.pyw` file is skipped (contributes no
check sites) no matter what the extractors would return. -/
theorem unmapped_extensions_skipped :
    alookup extractors ".pyw" = none ∧
    alookup extractors ".mjs" = none ∧
    alookup extractors ".cjs" = none ∧
    alookup extractors ".mts" = none ∧
    alookup extractors ".cts" = none ∧
    scanFile (fun _ _ => [someUsage]) pywFile = [] := by
  refine ⟨by decide, by decide, by decide, by decide, by decide, by decide⟩

/-- C8 (amended): dispatch is by extension with exactly the mapping
`.py` to the Python extractor and `.js`, `.ts`, `.jsx`, `.tsx` to the
JavaScript extractor (the TypeScript extensions share the JS extractor
instance); every other extension is unmapped and `_scan_file` then
returns no check sites. -/
theorem extractor_dispatch_exact :
    (∀ ext, alookup extractors ext = some .python ↔ ext = ".py") ∧
    (∀ ext, alookup extractors ext = some .javascript ↔
      (ext = ".js" ∨ ext = ".ts" ∨ ext = ".jsx" ∨ ext = ".tsx")) ∧
    (∀ ext, alookup extractors ext = none ↔
      ¬(ext = ".py" ∨ ext = ".js" ∨ ext = ".ts" ∨ ext = ".jsx" ∨ ext = ".tsx")) ∧
    (∀ run f, alookup extractors f.suffix = none → scanFile run f = []) := by
  have hlook : ∀ ext, alookup extractors ext =
      if ".py" = ext then some .python
      else if ".js" = ext then some .javascript
      else if ".ts" = ext then some .javascript
      else if ".jsx" = ext then some .javascript
      else if ".tsx" = ext then some .javascript
      else none := fun ext => rfl
  refine ⟨?_, ?_, ?_, ?_⟩
  · intro ext
    rw [hlook]
    split_ifs with h1 h2 h3 h4 h5 <;> simp_all [eq_comm]
  · intro ext
    rw [hlook]
    split_ifs with h1 h2 h3 h4 h5 <;> simp_all [eq_comm]
  · intro ext
    rw [hlook]
    split_ifs with h1 h2 h3 h4 h5 <;> simp_all [eq_comm]
  · intro run f h
    simp [scanFile, h]

/-- Witness for C8's amended claim: a `.rs` file is skipped. -/
theorem extractor_dispatch_exact_witness :
    scanFile (fun _ _ => [someUsage]) rsFile = [] :=
  extractor_dispatch_exact.2.2.2 (fun _ _ => [someUsage]) rsFile (by decide)

/-! ## C10: negative fallthrough indices in the LaunchDarkly parser -/

theorem ldParseVariationsAux_length :
    ∀ (i : Nat) (l : List JValue), (ldParseVariationsAux i l).length = l.length := by
  intro i l
  induction l generalizing i with
  | nil => rfl
  | cons v rest ih => simp [ldParseVariationsAux, ih]

theorem variation_name_ne_empty (t : String) : "variation_" ++ t ≠ "" := by
  intro hcon
  have h2 := congrArg String.length hcon
  rw [String.length_append] at h2
  have h3 : ("variation_" : String).length = 10 := rfl
  have h4 : ("" : String).length = 0 := rfl
  omega

theorem ldParseVariationsAux_names :
    ∀ (i : Nat) (l : List JValue) (v : FlagVariation),
      v ∈ ldParseVariationsAux i l → v.name ≠ "" := by
  intro i l
  induction l generalizing i with
  | nil => intro v hv; simp [ldParseVariationsAux] at hv
  | cons w rest ih =>
      intro v hv
      simp only [ldParseVariationsAux, List.mem_cons] at hv
      rcases hv with hv | hv
      · subst hv
        cases w with
        | bool b => cases b <;> simp
        | null => exact variation_name_ne_empty _
        | int n => exact variation_name_ne_empty _
        | str s => exact variation_name_ne_empty _
        | arr l2 => exact variation_name_ne_empty _
        | obj l2 => exact variation_name_ne_empty _
      · exact ih (i + 1) v hv

theorem pyListGet_mem {α : Type} (l : List α) (i : Int) (v : α)
    (h : pyListGet l i = some v) : v ∈ l := by
  simp only [pyListGet] at h
  split_ifs at h with h1 h2 h3 <;> try simp at h
  all_goals
    obtain ⟨hlt, hv⟩ := List.getElem?_eq_some.mp h
    exact hv ▸ List.getElem_mem hlt

/-- C10 (confirmed): for a fallthrough variation index that is a
negative integer whose absolute value does not exceed the number of
variations, the LaunchDarkly default-variation expression yields the
name of the variation at that position counted from the end (Python
negative indexing) and raises no `IndexError`; the empty
`default_variation` arises exactly for indices at least the number of
variations. -/
theorem ld_negative_fallthrough_indexes_from_end (raw : List JValue) (idx : Int)
    (hneg : idx < 0) (hbound : -((raw.length : Int)) ≤ idx) :
    ldDefaultVariation (ldParseVariations raw) idx ≠ none ∧
    (∃ hlt : (((ldParseVariations raw).length : Int) + idx).toNat <
        (ldParseVariations raw).length,
      ldDefaultVariation (ldParseVariations raw) idx =
        some ((ldParseVariations raw).get
          ⟨(((ldParseVariations raw).length : Int) + idx).toNat, hlt⟩).name) ∧
    (∀ j : Int, ldDefaultVariation (ldParseVariations raw) j = some "" ↔
      ((ldParseVariations raw).length : Int) ≤ j) := by
  have hlen : (ldParseVariations raw).length = raw.length :=
    ldParseVariationsAux_length 0 raw
  have hname : ∀ v ∈ ldParseVariations raw, v.name ≠ "" :=
    fun v hv => ldParseVariationsAux_names 0 raw v hv
  have hlen' : ((ldParseVariations raw).length : Int) = (raw.length : Int) := by
    exact_mod_cast hlen
  have hidx : idx < ((ldParseVariations raw).length : Int) := by omega
  have hj0 : 0 ≤ ((ldParseVariations raw).length : Int) + idx := by omega
  have hjlt : ((ldParseVariations raw).length : Int) + idx <
      ((ldParseVariations raw).length : Int) := by omega
  have htnat : (((ldParseVariations raw).length : Int) + idx).toNat <
      (ldParseVariations raw).length := by omega
  have hget : pyListGet (ldParseVariations raw) idx =
      some ((ldParseVariations raw).get
        ⟨(((ldParseVariations raw).length : Int) + idx).toNat, htnat⟩) := by
    simp only [pyListGet, if_pos hneg]
    rw [if_pos ⟨hj0, hjlt⟩]
    exact List.get?_eq_get htnat
  have hmain : ldDefaultVariation (ldParseVariations raw) idx =
      some ((ldParseVariations raw).get
        ⟨(((ldParseVariations raw).length : Int) + idx).toNat, htnat⟩).name := by
    rw [ldDefaultVariation, if_pos hidx, hget]
    rfl
  refine ⟨by simp [hmain], ⟨htnat, hmain⟩, ?_⟩
  intro j
  by_cases hge : ((ldParseVariations raw).length : Int) ≤ j
  · have hnl : ¬j < ((ldParseVariations raw).length : Int) := not_lt.mpr hge
    simp [ldDefaultVariation, hnl, hge]
  · have hjlt2 : j < ((ldParseVariations raw).length : Int) := lt_of_not_ge hge
    rw [ldDefaultVariation, if_pos hjlt2]
    constructor
    · intro hsome
      exfalso
      cases hpg : pyListGet (ldParseVariations raw) j with
      | none => rw [hpg] at hsome; cases hsome
      | some v =>
          rw [hpg] at hsome
          simp only [Option.map_some'] at hsome
          have hv : v ∈ ldParseVariations raw := pyListGet_mem _ _ _ hpg
          exact hname v hv (Option.some.injEq _ _ ▸ hsome)
    · intro hge2
      exact absurd hge2 hge

/-- Witness for C10 at the two-variation array and index `-1`. -/
theorem ld_negative_fallthrough_indexes_from_end_witness :
    ldDefaultVariation (ldParseVariations twoVariationsRaw) (-1) ≠ none :=
  (ld_negative_fallthrough_indexes_from_end twoVariationsRaw (-1)
    (by decide) (by decide)).1

/-! ## C1: what the conflict enumeration actually returns -/

theorem mem_statesWith (f1 f2 : String) (st : List (String × Bool)) :
    st ∈ statesWith f1 f2 ↔ ∃ v1 v2, st = mkPairState f1 v1 f2 v2 := by
  constructor
  · intro h
    simp only [statesWith, List.mem_cons, List.not_mem_nil, or_false] at h
    rcases h with rfl | rfl | rfl | rfl
    · exact ⟨true, true, rfl⟩
    · exact ⟨true, false, rfl⟩
    · exact ⟨false, true, rfl⟩
    · exact ⟨false, false, rfl⟩
  · rintro ⟨v1, v2, rfl⟩
    cases v1 <;> cases v2 <;> simp [statesWith]

theorem mem_impossibleLoop (s : FlagSATSolver) (flags : List String)
    (st : List (String × Bool)) :
    st ∈ impossibleLoop s flags ↔
      ∃ f1 f2 v1 v2, [f1, f2].Sublist flags ∧ st = mkPairState f1 v1 f2 v2 ∧
        checkStatePossible s st = false := by
  induction flags with
  | nil =>
      simp [impossibleLoop]
  | cons f rest ih =>
      constructor
      · intro hmem
        rcases List.mem_append.mp hmem with hmem | hmem
        · obtain ⟨l, hl, hst⟩ := List.mem_flatten.mp hmem
          obtain ⟨f2, hf2, rfl⟩ := List.mem_map.mp hl
          have hst' := List.mem_filter.mp hst
          obtain ⟨v1, v2, rfl⟩ := (mem_statesWith f f2 _).mp hst'.1
          have hcp : checkStatePossible s (mkPairState f v1 f2 v2) = false := by
            simpa using hst'.2
          exact ⟨f, f2, v1, v2,
            List.Sublist.cons₂ f (List.singleton_sublist.mpr hf2), rfl, hcp⟩
        · obtain ⟨f1, f2, v1, v2, hsub, hst, hcp⟩ := ih.mp hmem
          exact ⟨f1, f2, v1, v2, List.Sublist.cons f hsub, hst, hcp⟩
      · rintro ⟨f1, f2, v1, v2, hsub, rfl, hcp⟩
        cases hsub with
        | cons a h' =>
            exact List.mem_append.mpr
              (Or.inr (ih.mpr ⟨f1, f2, v1, v2, h', rfl, hcp⟩))
        | cons₂ a h' =>
            refine List.mem_append.mpr (Or.inl ?_)
            refine List.mem_flatten.mpr
              ⟨_, List.mem_map.mpr ⟨f2, List.singleton_sublist.mp h', rfl⟩, ?_⟩
            exact List.mem_filter.mpr
              ⟨(mem_statesWith _ f2 _).mpr ⟨v1, v2, rfl⟩, by simp [hcp]⟩

/-- C1 (counterexample): with a single registered flag `a` constrained
always-off, the singleton assignment `{a: true}` has size 1 ≤ 2 and is
unsatisfiable under the permanent theory, yet `detect_all_conflicts`
(at the default `max_flags_per_conflict = 2`) emits nothing: the
enumeration never visits subsets of size 1. -/
theorem singleton_conflict_not_enumerated :
    oneDisabledFlagSolver.vars = ["a"] ∧
    checkStatePossible oneDisabledFlagSolver [("a", true)] = false ∧
    ¬theorySatisfiable oneDisabledFlagSolver.constraints [("a", true)] ∧
    ([("a", true)] : List (String × Bool)).length ≤ 2 ∧
    getImpossibleStates oneDisabledFlagSolver oneDisabledFlagSolver.vars 2 = [] ∧
    detectAllConflicts oneDisabledFlagSolver = [] := by
  refine ⟨by decide, by decide, ?_, by decide, by decide, by decide⟩
  rintro ⟨v, hc, hs⟩
  have h1 : ZConstraint.alwaysOff "a" ∈ oneDisabledFlagSolver.constraints := by decide
  have h2 := hc _ h1
  have h3 := hs ("a", true) (by simp)
  rw [constraintHolds] at h2
  rw [h2] at h3
  cases h3

theorem detect_conflicts_pairs_check (s : FlagSATSolver) (k : Nat)
    (st : List (String × Bool)) :
    (∃ c ∈ detectAllConflicts s k, c.conflicting_values = st) ↔
      ∃ f1 f2 v1 v2, [f1, f2].Sublist s.vars ∧ st = mkPairState f1 v1 f2 v2 ∧
        checkStatePossible s st = false := by
  constructor
  · rintro ⟨c, hc, rfl⟩
    obtain ⟨st', hst', rfl⟩ := List.mem_map.mp hc
    show ∃ f1 f2 v1 v2, [f1, f2].Sublist s.vars ∧
      st' = mkPairState f1 v1 f2 v2 ∧ checkStatePossible s st' = false
    rw [getImpossibleStates] at hst'
    cases hav : s.available
    · rw [hav] at hst'
      simp at hst'
    · rw [hav] at hst'
      simp only [Bool.not_true, Bool.false_eq_true, if_false] at hst'
      exact (mem_impossibleLoop s s.vars st').mp hst'
  · rintro ⟨f1, f2, v1, v2, hsub, rfl, hcp⟩
    refine ⟨createConflict (mkPairState f1 v1 f2 v2), ?_, rfl⟩
    rw [detectAllConflicts]
    refine List.mem_map.mpr ⟨_, ?_, rfl⟩
    have hav : s.available = true := by
      cases h : s.available
      · rw [checkStatePossible, h] at hcp
        simp at hcp
      · rfl
    rw [getImpossibleStates, hav]
    simp only [Bool.not_true, Bool.false_eq_true, if_false]
    exact (mem_impossibleLoop s s.vars _).mpr ⟨f1, f2, v1, v2, hsub, rfl, hcp⟩

/-- C1 (amended): the states reported by `detect_all_conflicts` are
exactly the assignments over ordered pairs of distinct positions of the
registered-variable list, with all four value combinations tried, that
are unsatisfiable under the permanent theory (with a backend present);
`max_flags_per_conflict` is ignored and size-1 assignments are never
enumerated. -/
theorem detect_all_conflicts_exactly_unsat_pairs (s : FlagSATSolver) (k : Nat)
    (st : List (String × Bool)) :
    (∃ c ∈ detectAllConflicts s k, c.conflicting_values = st) ↔
      ∃ f1 f2 v1 v2, [f1, f2].Sublist s.vars ∧ st = mkPairState f1 v1 f2 v2 ∧
        s.available = true ∧ ¬theorySatisfiable s.constraints st := by
  rw [detect_conflicts_pairs_check s k st]
  have hbridge : checkStatePossible s st = false ↔
      (s.available = true ∧ ¬theorySatisfiable s.constraints st) := by
    constructor
    · intro hf
      have hav : s.available = true := by
        cases h : s.available
        · rw [checkStatePossible, h] at hf
          simp at hf
        · rfl
      refine ⟨hav, fun hsat => ?_⟩
      have := (checkStatePossible_iff s hav st).mpr hsat
      rw [this] at hf
      cases hf
    · rintro ⟨hav, hns⟩
      cases hcp : checkStatePossible s st
      · rfl
      · exact absurd ((checkStatePossible_iff s hav st).mp hcp) hns
  simp only [hbridge]

/-! ## C9: what `_build_paths` actually aggregates -/

theorem alookup_of_mem_of_nodupKeys {κ β : Type} [DecidableEq κ] :
    ∀ (l : List (κ × β)), (l.map Prod.fst).Nodup →
      ∀ (k : κ) (v : β), (k, v) ∈ l → alookup l k = some v := by
  intro l
  induction l with
  | nil => intro _ k v hm; simp at hm
  | cons p rest ih =>
      intro h k v hm
      obtain ⟨k', v'⟩ := p
      simp only [List.map_cons, List.nodup_cons] at h
      rcases List.mem_cons.mp hm with heq | hm'
      · injection heq with h1 h2
        subst h1
        subst h2
        simp [alookup]
      · have hk : ¬(k' = k) := by
          intro he
          subst he
          exact h.1 (List.mem_map.mpr ⟨(k', v), hm', rfl⟩)
        simp only [alookup, hk, if_false]
        exact ih h.2 k v hm'

theorem alookup_upsertGroup (acc : List ((String × Option String) × List FlagUsage))
    (u : FlagUsage) (key : String × Option String) :
    alookup (upsertGroup acc u) key =
      if usageKey u = key then
        match alookup acc key with
        | some g => some (g ++ [u])
        | none => some [u]
      else alookup acc key := by
  induction acc with
  | nil =>
      by_cases h : usageKey u = key <;> simp [upsertGroup, alookup, h]
  | cons p rest ih =>
      obtain ⟨k, g⟩ := p
      by_cases h1 : k = usageKey u
      · by_cases h2 : k = key
        · have h3 : usageKey u = key := h1.symm.trans h2
          simp [upsertGroup, alookup, h1, h2, h3]
        · have h3 : ¬usageKey u = key := fun he => h2 (h1.trans he)
          simp [upsertGroup, alookup, h1, h2, h3]
      · by_cases h2 : k = key
        · have h3 : ¬usageKey u = key := fun he => h1 (h2.trans he.symm)
          have h4 : ¬key = usageKey u := fun he => h1 (h2.trans he)
          simp [upsertGroup, alookup, h1, h2, h3, h4]
        · simp [upsertGroup, alookup, h1, h2, ih]

theorem keys_upsertGroup (acc : List ((String × Option String) × List FlagUsage))
    (u : FlagUsage) :
    (upsertGroup acc u).map Prod.fst =
      if usageKey u ∈ acc.map Prod.fst then acc.map Prod.fst
      else acc.map Prod.fst ++ [usageKey u] := by
  induction acc with
  | nil => simp [upsertGroup]
  | cons p rest ih =>
      obtain ⟨k, g⟩ := p
      by_cases h1 : k = usageKey u
      · subst h1
        simp [upsertGroup]
      · have h4 : ¬usageKey u = k := fun he => h1 he.symm
        by_cases h2 : usageKey u ∈ rest.map Prod.fst
        · simp [upsertGroup, h1, ih, h2, h4]
        · simp [upsertGroup, h1, ih, h2, h4]

theorem alookup_foldl_upsert_some (us : List FlagUsage) :
    ∀ (acc : List ((String × Option String) × List FlagUsage))
      (key : String × Option String) (g : List FlagUsage),
      alookup acc key = some g →
      alookup (us.foldl upsertGroup acc) key =
        some (g ++ us.filter (fun u => usageKey u = key)) := by
  induction us with
  | nil =>
      intro acc key g h
      simpa using h
  | cons u rest ih =>
      intro acc key g h
      rw [List.foldl_cons]
      by_cases hk : usageKey u = key
      · have h2 : alookup (upsertGroup acc u) key = some (g ++ [u]) := by
          rw [alookup_upsertGroup, if_pos hk, h]
        rw [ih _ _ _ h2]
        simp [List.filter_cons, hk]
      · have h2 : alookup (upsertGroup acc u) key = some g := by
          rw [alookup_upsertGroup, if_neg hk]
          exact h
        rw [ih _ _ _ h2]
        simp [List.filter_cons, hk]

theorem alookup_foldl_upsert_none (us : List FlagUsage) :
    ∀ (acc : List ((String × Option String) × List FlagUsage))
      (key : String × Option String),
      alookup acc key = none →
      alookup (us.foldl upsertGroup acc) key =
        (if (us.filter (fun u => usageKey u = key)).isEmpty then none
         else some (us.filter (fun u => usageKey u = key))) := by
  induction us with
  | nil =>
      intro acc key h
      simpa using h
  | cons u rest ih =>
      intro acc key h
      rw [List.foldl_cons]
      by_cases hk : usageKey u = key
      · have h2 : alookup (upsertGroup acc u) key = some [u] := by
          rw [alookup_upsertGroup, if_pos hk, h]
        rw [alookup_foldl_upsert_some rest _ _ _ h2]
        simp [List.filter_cons, hk]
      · have h2 : alookup (upsertGroup acc u) key = none := by
          rw [alookup_upsertGroup, if_neg hk]
          exact h
        rw [ih _ _ h2]
        simp [List.filter_cons, hk]

theorem alookup_groupByLocation (usages : List FlagUsage)
    (key : String × Option String) :
    alookup (groupByLocation usages) key =
      (if (usages.filter (fun u => usageKey u = key)).isEmpty then none
       else some (usages.filter (fun u => usageKey u = key))) :=
  alookup_foldl_upsert_none usages [] key rfl

theorem keys_foldl_upsert_nodup (us : List FlagUsage) :
    ∀ acc, ((acc.map Prod.fst : List (String × Option String))).Nodup →
      ((us.foldl upsertGroup acc).map Prod.fst).Nodup := by
  induction us with
  | nil => intro acc h; exact h
  | cons u rest ih =>
      intro acc h
      rw [List.foldl_cons]
      apply ih
      rw [keys_upsertGroup]
      by_cases hm : usageKey u ∈ acc.map Prod.fst
      · rw [if_pos hm]
        exact h
      · rw [if_neg hm]
        simp [List.nodup_append, h, hm]

theorem keys_foldl_upsert_mem (us : List FlagUsage) :
    ∀ acc (key : String × Option String),
      key ∈ (us.foldl upsertGroup acc).map Prod.fst ↔
        key ∈ acc.map Prod.fst ∨ ∃ u ∈ us, usageKey u = key := by
  induction us with
  | nil => intro acc key; simp
  | cons u rest ih =>
      intro acc key
      rw [List.foldl_cons, ih]
      constructor
      · rintro (hmem | hrest)
        · rw [keys_upsertGroup] at hmem
          by_cases hm : usageKey u ∈ acc.map Prod.fst
          · rw [if_pos hm] at hmem
            exact Or.inl hmem
          · rw [if_neg hm] at hmem
            rcases List.mem_append.mp hmem with hmem | hmem
            · exact Or.inl hmem
            · simp only [List.mem_singleton] at hmem
              exact Or.inr ⟨u, by simp, hmem.symm⟩
        · obtain ⟨w, hw, hwk⟩ := hrest
          exact Or.inr ⟨w, List.mem_cons_of_mem u hw, hwk⟩
      · rintro (hacc | ⟨w, hw, hwk⟩)
        · left
          rw [keys_upsertGroup]
          split_ifs with hm
          · exact hacc
          · exact List.mem_append.mpr (Or.inl hacc)
        · rcases List.mem_cons.mp hw with rfl | hw'
          · left
            rw [keys_upsertGroup]
            split_ifs with hm
            · rwa [← hwk]
            · exact List.mem_append.mpr (Or.inr (by simp [hwk]))
          · exact Or.inr ⟨w, hw', hwk⟩

theorem snd_upsertGroup_ne_nil (acc : List ((String × Option String) × List FlagUsage))
    (u : FlagUsage) (h : ∀ kg ∈ acc, kg.2 ≠ []) :
    ∀ kg ∈ upsertGroup acc u, kg.2 ≠ [] := by
  induction acc with
  | nil =>
      intro kg hkg
      simp only [upsertGroup, List.mem_singleton] at hkg
      subst hkg
      simp
  | cons p rest ih =>
      intro kg hkg
      obtain ⟨k, g⟩ := p
      by_cases h1 : k = usageKey u
      · rw [upsertGroup, if_pos h1] at hkg
        rcases List.mem_cons.mp hkg with rfl | hkg'
        · simp
        · exact h kg (List.mem_cons_of_mem _ hkg')
      · rw [upsertGroup, if_neg h1] at hkg
        rcases List.mem_cons.mp hkg with rfl | hkg'
        · exact h (k, g) (by simp)
        · exact ih (fun x hx => h x (List.mem_cons_of_mem _ hx)) kg hkg'

theorem snd_foldl_upsert_ne_nil (us : List FlagUsage) :
    ∀ acc, (∀ kg ∈ acc, kg.2 ≠ []) →
      ∀ kg ∈ us.foldl upsertGroup acc, kg.2 ≠ [] := by
  induction us with
  | nil => intro acc h; exact h
  | cons u rest ih =>
      intro acc h
      rw [List.foldl_cons]
      exact ih _ (snd_upsertGroup_ne_nil acc u h)

theorem groupByLocation_snd_ne_nil (usages : List FlagUsage) :
    ∀ kg ∈ groupByLocation usages, kg.2 ≠ [] :=
  snd_foldl_upsert_ne_nil usages [] (by simp)

theorem buildPaths_eq_map (usages : List FlagUsage) :
    buildPaths usages = (groupByLocation usages).map pathOfGroup := by
  rw [buildPaths]
  have hne := groupByLocation_snd_ne_nil usages
  revert hne
  generalize groupByLocation usages = l
  intro hne
  induction l with
  | nil => rfl
  | cons kg rest ih =>
      have h1 : kg.2 ≠ [] := hne kg (by simp)
      have h2 : kg.2.isEmpty = false := by
        cases hsnd : kg.2 with
        | nil => exact absurd hsnd h1
        | cons a t => rfl
      rw [List.filterMap_cons, List.map_cons, h2]
      simp only [Bool.false_eq_true, if_false]
      rw [ih (fun x hx => hne x (List.mem_cons_of_mem _ hx))]

theorem alookup_insertAssign (m : List (String × Bool)) (n : String) (v : Bool)
    (key : String) :
    alookup (insertAssign m n v) key = if n = key then some v else alookup m key := by
  induction m with
  | nil => by_cases h : n = key <;> simp [insertAssign, alookup, h]
  | cons p rest ih =>
      obtain ⟨k, w⟩ := p
      by_cases h1 : k = n
      · by_cases h2 : k = key
        · have h3 : n = key := h1.symm.trans h2
          simp [insertAssign, alookup, h1, h2, h3]
        · have h3 : ¬n = key := fun he => h2 (h1.trans he)
          simp [insertAssign, alookup, h1, h2, h3]
      · by_cases h2 : k = key
        · have h3 : ¬n = key := fun he => h1 (h2.trans he.symm)
          have h4 : ¬key = n := fun he => h1 (h2.trans he)
          simp [insertAssign, alookup, h1, h2, h3, h4]
        · simp [insertAssign, alookup, h1, h2, ih]

theorem getLast?_cons_of_ne_nil {α : Type} (a : α) (l : List α) (h : l ≠ []) :
    (a :: l).getLast? = l.getLast? := by
  cases l with
  | nil => exact absurd rfl h
  | cons b t => exact List.getLast?_cons_cons

theorem alookup_pathRequiredFlags_aux (g : List FlagUsage) :
    ∀ (m : List (String × Bool)) (key : String),
      alookup (g.foldl (fun m u => insertAssign m u.flag_name (!u.negated)) m) key =
        (match (g.filter (fun u => u.flag_name = key)).getLast? with
         | some u => some (!u.negated)
         | none => alookup m key) := by
  induction g with
  | nil => intro m key; simp
  | cons u rest ih =>
      intro m key
      rw [List.foldl_cons, ih]
      by_cases hk : u.flag_name = key
      · rw [List.filter_cons_of_pos (by simp [hk])]
        cases hlast : (rest.filter (fun u => u.flag_name = key)).getLast? with
        | some w =>
            have hne : rest.filter (fun u => u.flag_name = key) ≠ [] := by
              intro hnil
              rw [hnil] at hlast
              cases hlast
            rw [getLast?_cons_of_ne_nil u _ hne, hlast]
        | none =>
            have hnil : rest.filter (fun u => u.flag_name = key) = [] := by
              cases hf : rest.filter (fun u => u.flag_name = key) with
              | nil => rfl
              | cons a t =>
                  rw [hf] at hlast
                  rcases List.getLast?_eq_none_iff.mp hlast with h
                  cases h
            rw [hnil]
            simp [alookup_insertAssign, hk]
      · rw [List.filter_cons_of_neg (by simp [hk])]
        cases hlast : (rest.filter (fun u => u.flag_name = key)).getLast? with
        | some w => rfl
        | none => simp [alookup_insertAssign, hk]

theorem alookup_pathRequiredFlags (g : List FlagUsage) (key : String) :
    alookup (pathRequiredFlags g) key =
      ((g.filter (fun u => u.flag_name = key)).getLast?).map (fun u => !u.negated) := by
  rw [pathRequiredFlags, alookup_pathRequiredFlags_aux]
  cases hlast : (g.filter (fun u => u.flag_name = key)).getLast? <;> simp [alookup]

/-- C9 (counterexample): two usages of the same flag `a` with opposite
polarities in one (file, function) group produce one path whose
`required_flags` maps `a` to the later usage's `not negated` only; the
earlier usage's required value `true` is overwritten, so the path's
assignment does not map every site's flag to that site's `not negated`. -/
theorem build_paths_both_polarities_overwritten :
    usageKey posUsage = usageKey negUsage ∧
    posUsage.flag_name = "a" ∧
    (!posUsage.negated) = true ∧
    buildPaths [posUsage, negUsage] = [bothPolaritiesPath] ∧
    alookup bothPolaritiesPath.required_flags "a" = some false := by
  refine ⟨by decide, by decide, by decide, by decide, by decide⟩

/-- C9 (amended): `_build_paths` emits exactly one `CodePath` per
distinct `(file_path, containing_function)` key having at least one
usage; its `required_flags` maps each flag name to `not negated` of the
*last* usage of that flag in the group (Python dict overwrite), and its
line range runs from the least `line_number` to the greatest
`end_line or line_number` over the group. -/
theorem build_paths_amended_spec (usages : List FlagUsage) :
    ((buildPaths usages).map (fun p => (p.file_path, p.containing_function))).Nodup ∧
    (∀ key, key ∈ (buildPaths usages).map (fun p => (p.file_path, p.containing_function)) ↔
      ∃ u ∈ usages, usageKey u = key) ∧
    (∀ p ∈ buildPaths usages,
      usages.filter (fun u => usageKey u = (p.file_path, p.containing_function)) ≠ [] ∧
      p.required_flags = pathRequiredFlags
        (usages.filter (fun u => usageKey u = (p.file_path, p.containing_function))) ∧
      (∀ name, alookup p.required_flags name =
        (((usages.filter (fun u => usageKey u = (p.file_path, p.containing_function))).filter
            (fun u => u.flag_name = name)).getLast?).map (fun u => !u.negated)) ∧
      p.start_line = listMinimum
        ((usages.filter (fun u => usageKey u = (p.file_path, p.containing_function))).map
          FlagUsage.line_number) ∧
      p.end_line = listMaximum
        ((usages.filter (fun u => usageKey u = (p.file_path, p.containing_function))).map
          usageEndLine)) := by
  have hmap := buildPaths_eq_map usages
  have hkeys : (buildPaths usages).map (fun p => (p.file_path, p.containing_function)) =
      (groupByLocation usages).map Prod.fst := by
    rw [hmap, List.map_map]
    exact List.map_congr_left (fun kg _ => by simp [pathOfGroup])
  refine ⟨?_, ?_, ?_⟩
  · rw [hkeys, groupByLocation]
    exact keys_foldl_upsert_nodup usages [] (by simp)
  · intro key
    rw [hkeys, groupByLocation, keys_foldl_upsert_mem usages [] key]
    simp
  · intro p hp
    rw [hmap] at hp
    obtain ⟨kg, hkg, rfl⟩ := List.mem_map.mp hp
    have hkey : ((pathOfGroup kg).file_path, (pathOfGroup kg).containing_function) = kg.1 := by
      simp [pathOfGroup]
    have hkgne : kg.2 ≠ [] := groupByLocation_snd_ne_nil usages kg hkg
    have hnodup : ((groupByLocation usages).map Prod.fst).Nodup := by
      rw [groupByLocation]
      exact keys_foldl_upsert_nodup usages [] (by simp)
    have hlook : alookup (groupByLocation usages) kg.1 = some kg.2 := by
      have := alookup_of_mem_of_nodupKeys (groupByLocation usages) hnodup kg.1 kg.2
      exact this (by simpa using hkg)
    have hfilter := alookup_groupByLocation usages kg.1
    rw [hlook] at hfilter
    by_cases hfe : (usages.filter (fun u => usageKey u = kg.1)).isEmpty
    · rw [if_pos hfe] at hfilter
      cases hfilter
    · rw [if_neg hfe] at hfilter
      have hkg2 : kg.2 = usages.filter (fun u => usageKey u = kg.1) :=
        Option.some.inj hfilter
      rw [hkey, ← hkg2]
      exact ⟨hkgne, rfl, fun name => alookup_pathRequiredFlags kg.2 name, rfl, rfl⟩

/-- Witness for C9's amended claim at the two-usage group. -/
theorem build_paths_amended_spec_witness :
    ([posUsage, negUsage].filter (fun u => usageKey u =
      (bothPolaritiesPath.file_path, bothPolaritiesPath.containing_function))) ≠ [] :=
  ((build_paths_amended_spec [posUsage, negUsage]).2.2 bothPolaritiesPath (by decide)).1

end FlagGuard
